import Mathlib

/-!
Verification development for the convex-navigator resolver.

The TypeScript sources are shallowly embedded below:
- `src/config.ts` : path codec (`getRelativeConvexPath`, `toApiPath`, `fromApiPath`)
- `src/resolver/pathResolver.ts` : project-info cache (`getConvexProjectInfo`,
  `clearProjectCache`), `computeApiPath`, `resolveApiPath`
- function scanner (`buildFunctionPattern`, `getFunctionType`,
  `findConvexFunctionsInFile`, `findConvexFunctionAtPosition`)
- `referenceProvider.ts` : usage search (`searchForUsages`)

Strings are modelled by Lean `String` (lists of characters); JavaScript string
operations (`split`, `join`, `startsWith`, `includes`, `replace` with the
anchored extension / namespace regexes) are implemented character-by-character.
Node `path` functions (`relative`, `join`, `sep = "/"`) are modelled for POSIX
paths.  The file system (`fs.existsSync`) is modelled as an explicit list of
existing paths, the wall clock (`Date.now()`) as an explicit `Nat` argument,
and text documents by their path and content.
-/

set_option maxRecDepth 40000

namespace ConvexNavigator

/-- Prepend a character to the first piece of a split (helper of `splitChar`). -/
def consHead (x : Char) : List (List Char) → List (List Char)
  | [] => [[x]]
  | h :: t => (x :: h) :: t

/-- JavaScript `s.split(sep)` for a one-character separator: splits at every
occurrence, keeping empty pieces, and yields `[s]` (or `[""]`) when the
separator does not occur. -/
def splitChar (c : Char) : List Char → List (List Char)
  | [] => [[]]
  | x :: xs => if x = c then [] :: splitChar c xs else consHead x (splitChar c xs)

/-- Auxiliary part of `join`: separator-prefixed tail pieces. -/
def joinSepAux (sep : List Char) : List (List Char) → List Char
  | [] => []
  | l :: ls => sep ++ l ++ joinSepAux sep ls

/-- JavaScript `parts.join(sep)`. -/
def joinSep (sep : List Char) : List (List Char) → List Char
  | [] => []
  | l :: ls => l ++ joinSepAux sep ls

/-- JavaScript `s.startsWith(pre)`. -/
def strStartsWith (s pre : String) : Bool :=
  List.isPrefixOf pre.data s.data

/-- JavaScript `s.endsWith(suffix)` at character-list level. -/
def sufEq (l suf : List Char) : Bool :=
  List.isPrefixOf suf.reverse l.reverse

/-- Drop the last `n` characters. -/
def dropSuf (l : List Char) (n : Nat) : List Char :=
  (l.reverse.drop n).reverse

/-- JavaScript `s.includes(sub)` (substring containment). -/
def containsSub (hay pat : List Char) : Bool :=
  match hay with
  | [] => pat.isEmpty
  | _ :: rest => List.isPrefixOf pat hay || containsSub rest pat

/-- Path components of a POSIX path (empty pieces from leading, trailing or
doubled separators discarded), as Node's path resolution normalizes them. -/
def pathComponents (p : String) : List (List Char) :=
  (splitChar '/' p.data).filter (fun l => !l.isEmpty)

/-- Drop the common prefix of two component lists (the core of Node
`path.relative`). -/
def dropCommon : List (List Char) → List (List Char) → List (List Char) × List (List Char)
  | [], bs => ([], bs)
  | a :: as, [] => (a :: as, [])
  | a :: as, b :: bs => if a = b then dropCommon as bs else (a :: as, b :: bs)

/-- Node `path.relative(base, target)` for absolute POSIX paths: drop the
common component prefix, emit `..` for every remaining base component, then
the remaining target components. -/
def pathRelative (base target : String) : String :=
  let p := dropCommon (pathComponents base) (pathComponents target)
  String.mk (joinSep ['/'] (p.1.map (fun _ => ['.', '.']) ++ p.2))

/-- `relative.replace(/\.(ts|tsx|js|jsx)$/, "")` from `getRelativeConvexPath`
(`src/config.ts`): the anchored regex removes exactly one trailing recognized
source extension if present (the four suffixes are mutually exclusive). -/
def stripSourceExt (s : String) : String :=
  if sufEq s.data ".tsx".data then String.mk (dropSuf s.data 4)
  else if sufEq s.data ".jsx".data then String.mk (dropSuf s.data 4)
  else if sufEq s.data ".ts".data then String.mk (dropSuf s.data 3)
  else if sufEq s.data ".js".data then String.mk (dropSuf s.data 3)
  else s

/-- `getRelativeConvexPath` (`src/config.ts`): `path.relative(convexDir,
filePath)` with the source extension stripped. -/
def getRelativeConvexPath (filePath convexDir : String) : String :=
  stripSourceExt (pathRelative convexDir filePath)

/-- `toApiPath` (`src/config.ts`): relative path with separators turned into
dots, then `.functionName` appended. -/
def toApiPath (filePath functionName convexDir : String) : String :=
  String.mk (joinSep ['.'] (splitChar '/' (getRelativeConvexPath filePath convexDir).data))
    ++ "." ++ functionName

/-- `apiPath.replace(/^(api|internal)\./, "")` from `fromApiPath`
(`src/config.ts`): strips one leading recognized namespace token (the two
prefixes are mutually exclusive, and the replacement happens at most once). -/
def stripNs (s : String) : String :=
  if strStartsWith s "api." then String.mk (s.data.drop 4)
  else if strStartsWith s "internal." then String.mk (s.data.drop 9)
  else s

/-- Result type of the decoder. -/
structure ParsedApiPath where
  modulePath : String
  functionName : String
deriving DecidableEq, Repr

/-- `fromApiPath` (`src/config.ts`): strip the namespace prefix, split on
dots; fewer than 2 segments is invalid (`null`); otherwise the last segment is
the function name and the preceding segments joined by `/` the module path. -/
def fromApiPath (apiPath : String) : Option ParsedApiPath :=
  let parts := splitChar '.' (stripNs apiPath).data
  if parts.length < 2 then none
  else
    some ⟨String.mk (joinSep ['/'] parts.dropLast),
          String.mk (parts.getLast?.getD [])⟩

/-- `ConvexProjectInfo` (`src/types.ts`), restricted to the fields the
resolver logic reads. -/
structure ProjectInfo where
  convexDir : String
  workspaceRoot : String
deriving DecidableEq, Repr

/-- `computeApiPath` (`src/resolver/pathResolver.ts`) for a present project
info: raw string-prefix containment test, then `api.` + `toApiPath`. -/
def computeApiPath (info : ProjectInfo) (filePath functionName : String) : Option String :=
  if strStartsWith filePath info.convexDir then
    some ("api." ++ toApiPath filePath functionName info.convexDir)
  else none

/-- Node `path.join(a, b)` for an already-normalized directory `a` and a
relative path `b` without `..` segments. -/
def pathJoin (a b : String) : String :=
  if a.data.getLast? = some '/' then a ++ b else a ++ "/" ++ b

/-- The fixed extension list tried by `resolveApiPath`, in source order. -/
def extensions : List String := [".ts", ".tsx", ".js", ".jsx"]

/-- `resolveApiPath` (`src/resolver/pathResolver.ts`) for a present project
info; `fs.existsSync` is modelled by membership in `existingFiles`. -/
def resolveApiPath (info : ProjectInfo) (existingFiles : List String) (apiPath : String) :
    Option (String × String) :=
  match fromApiPath apiPath with
  | none => none
  | some parsed =>
    match extensions.find?
        (fun ext => existingFiles.contains (pathJoin info.convexDir (parsed.modulePath ++ ext))) with
    | some ext => some (pathJoin info.convexDir (parsed.modulePath ++ ext), parsed.functionName)
    | none => none

/-- `DEFAULT_CONVEX_WRAPPERS` (`src/config.ts`). -/
def DEFAULT_CONVEX_WRAPPERS : List String :=
  ["query", "mutation", "action", "internalQuery", "internalMutation", "internalAction"]

/-! ### Project-info cache (`src/resolver/pathResolver.ts`, lines 12-36)

The module-level mutable variables `cachedProjectInfo` / `cacheTimestamp`
become an explicit state record; `Date.now()` becomes the `now` argument, and
the file-system detection `detectConvexProject()` becomes the `detect`
argument (its result at the moment of the call).  The third component of the
result records whether detection ran. -/

structure CacheState where
  cachedProjectInfo : Option ProjectInfo
  cacheTimestamp : Nat
deriving DecidableEq, Repr

def CACHE_TTL_MS : Nat := 30000

/-- `getConvexProjectInfo`: return the cached value when present and younger
than the TTL; otherwise run detection, overwrite the cache and stamp it. -/
def getConvexProjectInfo (detect : Option ProjectInfo) (now : Nat) (st : CacheState) :
    Option ProjectInfo × CacheState × Bool :=
  match st.cachedProjectInfo with
  | some info =>
    if now - st.cacheTimestamp < CACHE_TTL_MS then (some info, st, false)
    else (detect, ⟨detect, now⟩, true)
  | none => (detect, ⟨detect, now⟩, true)

/-- `clearProjectCache`: reset both cache slots. -/
def clearProjectCache (_st : CacheState) : CacheState :=
  ⟨none, 0⟩

/-! ### Function scanner (`buildFunctionPattern`, `getFunctionType`,
`findConvexFunctionsInFile`, `findConvexFunctionAtPosition`)

`buildFunctionPattern` builds the regex
`export\s+const\s+(\w+)\s*=\s*(w1|w2|...)(?:<[^>]+>)?\s*\(` which is executed
globally over the document text.  The matcher below implements exactly these
regex semantics: literal pieces, greedy `\s+`/`\s*`/`\w+` (deterministic here
because `\s`, `\w`, `=` and `(` are pairwise disjoint character classes),
first-alternative-that-lets-the-rest-match for the wrapper alternation, and a
greedy optional generic argument `<[^>]+>`.  Global `exec` finds the leftmost
match at or after `lastIndex` and resumes scanning at the match end. -/

/-- JavaScript regex `\s` (the ASCII part; all inputs here are ASCII). -/
def isJsWS (c : Char) : Bool :=
  c == ' ' || c == '\t' || c == '\n' || c == '\r' || c == '\x0b' || c == '\x0c'

/-- JavaScript regex `\w`. -/
def isWordChar (c : Char) : Bool :=
  c.isAlphanum || c == '_'

/-- Consume an exact literal. -/
def dropLit : List Char → List Char → Option (List Char)
  | [], l => some l
  | _, [] => none
  | p :: ps, c :: cs => if p = c then dropLit ps cs else none

/-- Consume `\s+` (at least one whitespace character, greedily). -/
def dropWS1 : List Char → Option (List Char)
  | [] => none
  | c :: cs => if isJsWS c then some (cs.dropWhile isJsWS) else none

/-- Consume `\s*`. -/
def dropWSMany (l : List Char) : List Char :=
  l.dropWhile isJsWS

/-- Consume `\w+` (at least one word character, greedily), returning it. -/
def takeWord1 : List Char → Option (List Char × List Char)
  | [] => none
  | c :: cs =>
    if isWordChar c then some (c :: cs.takeWhile isWordChar, cs.dropWhile isWordChar)
    else none

/-- Consume `(?:<[^>]+>)?\s*\(` after the wrapper name.  If the next character
is `<` the only way the whole tail can match is through the generic group, so
the apparent backtracking of the optional group is deterministic. -/
def matchTail : List Char → Option (List Char)
  | '<' :: cs =>
    let inner := cs.takeWhile (fun c => !(c == '>'))
    let rest := cs.dropWhile (fun c => !(c == '>'))
    if inner.isEmpty then none
    else
      match rest with
      | '>' :: cs2 =>
        match dropWSMany cs2 with
        | '(' :: cs3 => some cs3
        | _ => none
      | _ => none
  | l =>
    match dropWSMany l with
    | '(' :: cs => some cs
    | _ => none

/-- Try to match the export pattern at the head of `l`; on success return the
captured name, the matched wrapper, and the unconsumed remainder. -/
def tryMatchAt (wrappers : List String) (l : List Char) : Option (String × String × List Char) :=
  match dropLit "export".data l with
  | none => none
  | some l1 =>
    match dropWS1 l1 with
    | none => none
    | some l2 =>
      match dropLit "const".data l2 with
      | none => none
      | some l3 =>
        match dropWS1 l3 with
        | none => none
        | some l4 =>
          match takeWord1 l4 with
          | none => none
          | some (name, l5) =>
            match dropWSMany l5 with
            | '=' :: l6 =>
              match wrappers.findSome? (fun w =>
                  match dropLit w.data (dropWSMany l6) with
                  | some l8 => (matchTail l8).map (fun l9 => (w, l9))
                  | none => none) with
              | some (w, l9) => some (String.mk name, w, l9)
              | none => none
            | _ => none

/-- One raw regex match: capture groups plus the match start offset. -/
structure RawMatch where
  name : String
  wrapper : String
  index : Nat
deriving DecidableEq, Repr

/-- The global `exec` loop.  The fuel argument (initialized to the text length
plus one) only serves termination; every step consumes at least one character. -/
def scanAux (wrappers : List String) : Nat → List Char → Nat → List RawMatch
  | 0, _, _ => []
  | _ + 1, [], _ => []
  | fuel + 1, c :: cs, idx =>
    match tryMatchAt wrappers (c :: cs) with
    | some (name, w, rest) =>
      let len := (c :: cs).length - rest.length
      ⟨name, w, idx⟩ :: scanAux wrappers fuel (List.drop len (c :: cs)) (idx + len)
    | none => scanAux wrappers fuel cs (idx + 1)

/-- All pattern matches over a document text, in order. -/
def scanContent (wrappers : List String) (content : String) : List RawMatch :=
  scanAux wrappers (content.data.length + 1) content.data 0

/-- VS Code `document.positionAt(offset)`: 0-indexed line and column. -/
def positionAt (cs : List Char) (i : Nat) : Nat × Nat :=
  let pre := cs.take i
  (pre.count '\n', (pre.reverse.takeWhile (fun c => !(c == '\n'))).length)

/-- VS Code `document.lineCount`. -/
def documentLineCount (content : String) : Nat :=
  content.data.count '\n' + 1

/-- `ConvexFunctionType` (`src/types.ts`). -/
inductive ConvexFunctionType where
  | query
  | mutation
  | action
  | internalQuery
  | internalMutation
  | internalAction
  | unknown
deriving DecidableEq, Repr

/-- Lowercasing as in JavaScript `toLowerCase` on ASCII text. -/
def toLowerStr (s : String) : String :=
  String.mk (s.data.map Char.toLower)

/-- `getFunctionType`: case-insensitive substring tests, internal forms
first. -/
def getFunctionType (wrapper : String) : ConvexFunctionType :=
  let lw := (toLowerStr wrapper).data
  if containsSub lw "internalquery".data then .internalQuery
  else if containsSub lw "internalmutation".data then .internalMutation
  else if containsSub lw "internalaction".data then .internalAction
  else if containsSub lw "query".data then .query
  else if containsSub lw "mutation".data then .mutation
  else if containsSub lw "action".data then .action
  else .unknown

/-- `ConvexFunctionDefinition` (`src/types.ts`). -/
structure ConvexFunctionDefinition where
  name : String
  type : ConvexFunctionType
  filePath : String
  line : Nat
  column : Nat
  apiPath : String
  wrapper : String
deriving DecidableEq, Repr

/-- The shared collection loop of both scanner entry points: every regex
match whose `computeApiPath` succeeds yields a definition record. -/
def convexFunctionsOf (info : ProjectInfo) (wrappers : List String)
    (filePath content : String) : List ConvexFunctionDefinition :=
  (scanContent wrappers content).filterMap fun m =>
    match computeApiPath info filePath m.name with
    | some ap =>
      let pos := positionAt content.data m.index
      some ⟨m.name, getFunctionType m.wrapper, filePath, pos.1, pos.2, ap, m.wrapper⟩
    | none => none

/-- `findConvexFunctionsInFile`: empty when no project info; otherwise the
collection loop.  Note the source performs no `_generated` check here. -/
def findConvexFunctionsInFile (info? : Option ProjectInfo) (wrappers : List String)
    (filePath content : String) : List ConvexFunctionDefinition :=
  match info? with
  | none => []
  | some info => convexFunctionsOf info wrappers filePath content

/-- Maximal word-character runs of a line, as half-open `(start, stop)`
column ranges (fuel-based; every step consumes at least one character). -/
def wordRunsAux : Nat → List Char → Nat → List (Nat × Nat)
  | 0, _, _ => []
  | _ + 1, [], _ => []
  | fuel + 1, c :: cs, i =>
    if isWordChar c then
      let len := 1 + (cs.takeWhile isWordChar).length
      (i, i + len) :: wordRunsAux fuel (cs.dropWhile isWordChar) (i + len)
    else wordRunsAux fuel cs (i + 1)

def wordRuns (cs : List Char) : List (Nat × Nat) :=
  wordRunsAux (cs.length + 1) cs 0

/-- `getWordAtPosition`, via VS Code `getWordRangeAtPosition(position, /\w+/)`:
the word run whose inclusive boundary interval contains the cursor column. -/
def getWordAtPosition (content : String) (line char : Nat) : Option String :=
  let lineChars := (splitChar '\n' content.data).getD line []
  match (wordRuns lineChars).find? (fun r => decide (r.1 ≤ char) && decide (char ≤ r.2)) with
  | some r => some (String.mk ((lineChars.drop r.1).take (r.2 - r.1)))
  | none => none

/-- Strategy 3 of `findConvexFunctionAtPosition`: walk the line-sorted
definitions; a definition's body reaches to the line before the next
definition, or to the last line of the document for the final one. -/
def bodyContainment : List ConvexFunctionDefinition → Nat → Nat → Option ConvexFunctionDefinition
  | [], _, _ => none
  | f :: rest, line, lineCount =>
    let endLine := match rest with
      | g :: _ => g.line - 1
      | [] => lineCount - 1
    if f.line ≤ line ∧ line ≤ endLine then some f
    else bodyContainment rest line lineCount

/-- Stable sort by line number (JavaScript `Array.prototype.sort` is stable). -/
def insertByLine (f : ConvexFunctionDefinition) :
    List ConvexFunctionDefinition → List ConvexFunctionDefinition
  | [] => [f]
  | g :: gs => if f.line ≤ g.line then f :: g :: gs else g :: insertByLine f gs

def sortByLine : List ConvexFunctionDefinition → List ConvexFunctionDefinition
  | [] => []
  | f :: fs => insertByLine f (sortByLine fs)

/-- `findConvexFunctionAtPosition`: guard that the document is a
non-`_generated` file under the definitions root, then try, in order,
exact-line match, name-token match, and body containment. -/
def findConvexFunctionAtPosition (info? : Option ProjectInfo) (wrappers : List String)
    (filePath content : String) (line char : Nat) : Option ConvexFunctionDefinition :=
  match info? with
  | none => none
  | some info =>
    if strStartsWith filePath info.convexDir then
      if containsSub filePath.data "_generated".data then none
      else
        let functions := convexFunctionsOf info wrappers filePath content
        match functions.find? (fun f => f.line == line) with
        | some f => some f
        | none =>
          match getWordAtPosition content line char with
          | some w =>
            match functions.find? (fun f => f.name == w) with
            | some f => some f
            | none => bodyContainment (sortByLine functions) line (documentLineCount content)
          | none => bodyContainment (sortByLine functions) line (documentLineCount content)
    else none

/-! ### Usage search (`referenceProvider.ts`, `searchForUsages`)

The search pattern is the identifier with its dots escaped (`\.`), i.e. a
regex matching exactly the literal identifier text; the line matcher (ripgrep,
or the in-process fallback scan, which the external-tool contract requires to
agree) therefore reports the successive non-overlapping literal occurrences,
left to right.  Scope directories become explicit lists of files with
contents; `searchTimeMs` (wall-clock time) is not modelled. -/

/-- Successive non-overlapping occurrences of a literal pattern (the global
`exec` loop of the fallback scan / the ripgrep match list). -/
def findOccAux : Nat → List Char → List Char → Nat → List Nat
  | 0, _, _, _ => []
  | _ + 1, _, [], _ => []
  | fuel + 1, pat, c :: cs, idx =>
    if pat.isEmpty then []
    else if List.isPrefixOf pat (c :: cs) then
      idx :: findOccAux fuel pat (List.drop pat.length (c :: cs)) (idx + pat.length)
    else findOccAux fuel pat cs (idx + 1)

def findOccurrences (pat cs : List Char) : List Nat :=
  findOccAux (cs.length + 1) pat cs 0

/-- JavaScript `s.trim()` (ASCII whitespace). -/
def trimStr (s : String) : String :=
  String.mk (((s.data.dropWhile isJsWS).reverse.dropWhile isJsWS).reverse)

/-- The (trimmed) text of a document line, as both match providers report it. -/
def lineTextAt (content : String) (ln : Nat) : String :=
  trimStr (String.mk ((splitChar '\n' content.data).getD ln []))

/-- The alternation of the hook-classification regex
`(useQuery|useMutation|useAction|usePaginatedQuery|useConvexQuery|useConvexMutation|ctx\.(runQuery|runMutation|runAction))\s*\(`;
group 1 is the whole alternative. -/
def hookAlternatives : List String :=
  ["useQuery", "useMutation", "useAction", "usePaginatedQuery",
   "useConvexQuery", "useConvexMutation",
   "ctx.runQuery", "ctx.runMutation", "ctx.runAction"]

def hookTailOk (l : List Char) : Bool :=
  match dropWSMany l with
  | '(' :: _ => true
  | _ => false

def hookAt (cs : List Char) : Option String :=
  hookAlternatives.findSome? fun alt =>
    if List.isPrefixOf alt.data cs && hookTailOk (List.drop alt.data.length cs) then some alt
    else none

/-- `lineText.match(...)`: the leftmost position at which some alternative
(first in alternation order) followed by `\s*\(` matches. -/
def detectHook : List Char → Option String
  | [] => none
  | c :: cs =>
    match hookAt (c :: cs) with
    | some h => some h
    | none => detectHook cs

/-- `ConvexFunctionUsage` (`src/types.ts`). -/
structure ConvexFunctionUsage where
  apiPath : String
  filePath : String
  line : Nat
  column : Nat
  lineText : String
  hookUsed : Option String
deriving DecidableEq, Repr

/-- `UsageSearchResult` (`src/types.ts`), without the wall-clock field. -/
structure UsageSearchResult where
  functionName : String
  apiPath : String
  usages : List ConvexFunctionUsage
deriving DecidableEq, Repr

/-- A file inside a search scope. -/
structure ScopeFile where
  path : String
  content : String
deriving DecidableEq, Repr

/-- The per-file part of the search loop: every literal occurrence becomes a
usage record whose access pattern is the hook detected on the match line. -/
def usagesInFile (apiPath : String) (file : ScopeFile) : List ConvexFunctionUsage :=
  (findOccurrences apiPath.data file.content.data).map fun idx =>
    let pos := positionAt file.content.data idx
    let lt := lineTextAt file.content pos.1
    ⟨apiPath, file.path, pos.1, pos.2, lt, detectHook lt.data⟩

/-- `searchForUsages`: empty result when no project info; otherwise
concatenate the matches of every file of every scope, in order. -/
def searchForUsages (info? : Option ProjectInfo) (scopes : List (List ScopeFile))
    (apiPath functionName : String) : UsageSearchResult :=
  match info? with
  | none => ⟨functionName, apiPath, []⟩
  | some _ =>
    ⟨functionName, apiPath,
     scopes.flatMap (fun scope => scope.flatMap (usagesInFile apiPath))⟩

/-! ### Concrete scenario inputs used by the individual claims -/

/-- Build a multi-line document from its lines. -/
def mkContent (lines : List String) : String :=
  String.mk (joinSep ['\n'] (lines.map String.data))

/-- A detected project: definitions root `/ws/convex` inside workspace `/ws`. -/
def sampleInfo : ProjectInfo := ⟨"/ws/convex", "/ws"⟩

/-- A file inside the generated-output directory. -/
def genPath : String := "/ws/convex/_generated/api.ts"

/-- Generated-file text that nevertheless matches the export-wrapper pattern. -/
def genContent : String := "export const foo = query("

def c4path : String := "/ws/convex/myFile.ts"

/-- A 44-line document with definitions starting at lines 5 and 40 (0-indexed),
line 20 inside the first body and line 2 before any definition. -/
def c4content : String :=
  mkContent (["// convex functions", "import stuff from convex", "// nothing here", "", "",
      "export const firstFunc = query("]
    ++ List.replicate 14 "  work;"
    ++ ["  return 1;"]
    ++ List.replicate 18 "  work;"
    ++ [");", "export const secondFunc = mutation(", "  handler: doWork,", ");", "// end"])

def c4first : ConvexFunctionDefinition :=
  ⟨"firstFunc", ConvexFunctionType.query, c4path, 5, 0, "api.myFile.firstFunc", "query"⟩

def c4second : ConvexFunctionDefinition :=
  ⟨"secondFunc", ConvexFunctionType.mutation, c4path, 40, 0, "api.myFile.secondFunc", "mutation"⟩

def c10path : String := "/ws/convex/two.ts"

/-- Two definitions at lines 0 and 4; line 2 lies inside the first body and
mentions the second definition's name. -/
def c10content : String :=
  mkContent ["export const firstFunc = query(", "  uses helper,", "  calls secondFunc later,",
    ");", "export const secondFunc = mutation(", ");"]

def c10first : ConvexFunctionDefinition :=
  ⟨"firstFunc", ConvexFunctionType.query, c10path, 0, 0, "api.two.firstFunc", "query"⟩

def c10second : ConvexFunctionDefinition :=
  ⟨"secondFunc", ConvexFunctionType.mutation, c10path, 4, 0, "api.two.secondFunc", "mutation"⟩

def c6apiPath : String := "api.domains.contacts.createContact"

/-- A frontend file whose line 2 calls the function through `useMutation`. -/
def c6content : String :=
  mkContent ["import convexReact from convex/react", "",
    "const createContact = useMutation(api.domains.contacts.createContact);", ""]

def c6file : ScopeFile := ⟨"/ws/src/routes/new.tsx", c6content⟩

def c6record : ConvexFunctionUsage :=
  ⟨c6apiPath, "/ws/src/routes/new.tsx", 2, 34,
   "const createContact = useMutation(api.domains.contacts.createContact);",
   some "useMutation"⟩

/-! ### Auxiliary lemmas about the string plumbing -/

theorem consHead_ne_nil (x : Char) (ls : List (List Char)) : consHead x ls ≠ [] := by
  cases ls <;> simp [consHead]

theorem splitChar_ne_nil (c : Char) (l : List Char) : splitChar c l ≠ [] := by
  induction l with
  | nil => simp [splitChar]
  | cons x xs ih =>
    by_cases h : x = c <;> simp [splitChar, h, consHead_ne_nil]

theorem consHead_append (x : Char) (A B : List (List Char)) (h : A ≠ []) :
    consHead x (A ++ B) = consHead x A ++ B := by
  cases A with
  | nil => exact absurd rfl h
  | cons a as => simp [consHead]

theorem splitChar_append_sep (c : Char) (xs ys : List Char) :
    splitChar c (xs ++ c :: ys) = splitChar c xs ++ splitChar c ys := by
  induction xs with
  | nil => simp [splitChar]
  | cons x xs ih =>
    by_cases h : x = c
    · simp [splitChar, h, ih]
    · simp [splitChar, h, ih, consHead_append _ _ _ (splitChar_ne_nil c xs)]

theorem splitChar_no_sep (c : Char) (l : List Char) (h : c ∉ l) : splitChar c l = [l] := by
  induction l with
  | nil => rfl
  | cons x xs ih =>
    have hx : ¬ x = c := fun he => h (he ▸ List.mem_cons_self x xs)
    have hxs : c ∉ xs := fun hm => h (List.mem_cons_of_mem _ hm)
    simp [splitChar, hx, ih hxs, consHead]

theorem splitChar_cons_join (c : Char) (l : List Char) (ls : List (List Char))
    (hl : c ∉ l) (hls : ∀ m ∈ ls, c ∉ m) :
    splitChar c (l ++ joinSepAux [c] ls) = l :: ls := by
  induction ls generalizing l with
  | nil => simpa [joinSepAux] using splitChar_no_sep c l hl
  | cons m ms ih =>
    have h1 : l ++ joinSepAux [c] (m :: ms) = l ++ c :: (m ++ joinSepAux [c] ms) := by
      simp [joinSepAux]
    rw [h1, splitChar_append_sep, splitChar_no_sep c l hl,
      ih m (hls m (by simp)) (fun x hx => hls x (by simp [hx]))]
    rfl

theorem splitChar_joinSep (c : Char) (ls : List (List Char)) (hne : ls ≠ [])
    (hls : ∀ m ∈ ls, c ∉ m) : splitChar c (joinSep [c] ls) = ls := by
  cases ls with
  | nil => exact absurd rfl hne
  | cons l ms =>
    simpa [joinSep] using
      splitChar_cons_join c l ms (hls l (by simp)) (fun x hx => hls x (by simp [hx]))

theorem joinSepAux_snoc (sep y : List Char) (xs : List (List Char)) :
    joinSepAux sep (xs ++ [y]) = joinSepAux sep xs ++ (sep ++ y) := by
  induction xs with
  | nil => simp [joinSepAux]
  | cons x xs ih => simp [joinSepAux, ih]

theorem joinSep_snoc (c : Char) (xs : List (List Char)) (y : List Char) (h : xs ≠ []) :
    joinSep [c] (xs ++ [y]) = joinSep [c] xs ++ c :: y := by
  cases xs with
  | nil => exact absurd rfl h
  | cons x xs => simp [joinSep, joinSepAux_snoc]

theorem joinSep_last_ext (sep : List Char) (xs : List (List Char)) (l e : List Char) :
    joinSep sep (xs ++ [l ++ e]) = joinSep sep (xs ++ [l]) ++ e := by
  cases xs with
  | nil => simp [joinSep, joinSepAux]
  | cons x xs => simp [joinSep, joinSepAux_snoc]

theorem isPrefixOf_self_app (l t : List Char) : List.isPrefixOf l (l ++ t) = true := by
  induction l with
  | nil => simp [List.isPrefixOf]
  | cons a as ih => simp [List.isPrefixOf, ih]

theorem dropCommon_self_app (l x : List (List Char)) : dropCommon l (l ++ x) = ([], x) := by
  induction l with
  | nil => cases x <;> rfl
  | cons a as ih => simp [dropCommon, ih]

theorem sufEq_append_self (B e : List Char) : sufEq (B ++ e) e = true := by
  simp [sufEq, List.reverse_append, isPrefixOf_self_app]

/-- Stripping a recognized extension off `B ++ ext` recovers `B`, provided the
four extension suffixes are pairwise non-overlapping (checked case by case). -/
theorem stripSourceExt_append (B : List Char) (ext : String) (hext : ext ∈ extensions) :
    stripSourceExt (String.mk (B ++ ext.data)) = String.mk B := by
  simp only [extensions, List.mem_cons, List.not_mem_nil, or_false] at hext
  rcases hext with h | h | h | h <;> subst h <;>
    simp [stripSourceExt, sufEq, dropSuf, List.reverse_append, List.isPrefixOf,
      isPrefixOf_self_app]

theorem data_inj (s t : String) (h : s.data = t.data) : s = t := by
  cases s; cases t; cases h; rfl

theorem str_eq_of_data (s : String) (d : List Char) (h : s.data = d) : s = String.mk d := by
  cases s; cases h; rfl

/-! ### Claim theorems -/

/-- C1: codec round-trip.  For every file `f` under the definitions root `r`
with a `.ts`/`.tsx`/`.js`/`.jsx` extension whose directory and file-name
components contain no dots, and every function name `n` without a dot,
decoding the identifier produced by `computeApiPath` yields the function name
`n` and a module path that, rejoined to `r` with one of the four extensions
(tried in the fixed order, as `resolveApiPath` does), reconstructs exactly
`f`. -/
theorem c1_codec_roundtrip
    (r n ext f : String) (comps : List String)
    (hr0 : r.data ≠ []) (hr1 : r.data.getLast? ≠ some '/')
    (hne : comps ≠ [])
    (hc : ∀ c ∈ comps, c.data ≠ [] ∧ '/' ∉ c.data ∧ '.' ∉ c.data)
    (hn : '.' ∉ n.data)
    (hext : ext ∈ extensions)
    (hf : f = r ++ "/" ++ String.mk (joinSep ['/'] (comps.map String.data)) ++ ext) :
    ∃ ap mp,
      computeApiPath ⟨r, r⟩ f n = some ap ∧
      fromApiPath ap = some ⟨mp, n⟩ ∧
      (∃ e ∈ extensions, pathJoin r (mp ++ e) = f) ∧
      resolveApiPath ⟨r, r⟩ [f] ap = some (f, n) := by
  have hext4 : ext = ".ts" ∨ ext = ".tsx" ∨ ext = ".js" ∨ ext = ".jsx" := by
    simpa [extensions] using hext
  set l := comps.map String.data with hl
  have hlne : l ≠ [] := by
    rw [hl]; simpa using hne
  have hlslash : ∀ m ∈ l, '/' ∉ m := by
    intro m hm
    rw [hl] at hm
    obtain ⟨c, hc', rfl⟩ := List.mem_map.mp hm
    exact (hc c hc').2.1
  have hldot : ∀ m ∈ l, '.' ∉ m := by
    intro m hm
    rw [hl] at hm
    obtain ⟨c, hc', rfl⟩ := List.mem_map.mp hm
    exact (hc c hc').2.2
  have hlnn : ∀ m ∈ l, m ≠ [] := by
    intro m hm
    rw [hl] at hm
    obtain ⟨c, hc', rfl⟩ := List.mem_map.mp hm
    exact (hc c hc').1
  have hextslash : '/' ∉ ext.data := by
    rcases hext4 with h | h | h | h <;> subst h <;> decide
  have hextne : ext.data ≠ [] := by
    rcases hext4 with h | h | h | h <;> subst h <;> decide
  subst hf
  have hfd : (r ++ "/" ++ String.mk (joinSep ['/'] l) ++ ext).data
      = r.data ++ '/' :: (joinSep ['/'] l ++ ext.data) := by
    simp [String.data_append, show ("/" : String).data = ['/'] from rfl]
  set lastc := l.getLast hlne with hlastc
  have hsplit : l.dropLast ++ [lastc] = l := List.dropLast_append_getLast hlne
  set comps' := l.dropLast ++ [lastc ++ ext.data] with hcomps'
  have hcompsne' : comps' ≠ [] := by simp [hcomps']
  have hall' : ∀ m ∈ comps', '/' ∉ m := by
    intro m hm
    rw [hcomps'] at hm
    rcases List.mem_append.mp hm with h | h
    · exact hlslash m (List.dropLast_subset l h)
    · have hme : m = lastc ++ ext.data := by simpa using h
      subst hme
      intro hx
      rcases List.mem_append.mp hx with h2 | h2
      · exact hlslash lastc (List.getLast_mem hlne) h2
      · exact hextslash h2
  have hallnn' : ∀ m ∈ comps', m ≠ [] := by
    intro m hm
    rw [hcomps'] at hm
    rcases List.mem_append.mp hm with h | h
    · exact hlnn m (List.dropLast_subset l h)
    · have hme : m = lastc ++ ext.data := by simpa using h
      subst hme
      intro hx
      exact hextne (List.append_eq_nil.mp hx).2
  have hA : joinSep ['/'] comps' = joinSep ['/'] l ++ ext.data := by
    rw [hcomps', joinSep_last_ext, hsplit]
  have hpcf : pathComponents (r ++ "/" ++ String.mk (joinSep ['/'] l) ++ ext)
      = pathComponents r ++ comps' := by
    have h2 : splitChar '/' (joinSep ['/'] l ++ ext.data) = comps' := by
      rw [← hA]
      exact splitChar_joinSep '/' comps' hcompsne' hall'
    unfold pathComponents
    rw [hfd, splitChar_append_sep, h2, List.filter_append]
    congr 1
    rw [List.filter_eq_self]
    intro a ha
    simp [List.isEmpty_iff, hallnn' a ha]
  have hrel : pathRelative r (r ++ "/" ++ String.mk (joinSep ['/'] l) ++ ext)
      = String.mk (joinSep ['/'] comps') := by
    simp [pathRelative, hpcf, dropCommon_self_app]
  have hgrel : getRelativeConvexPath (r ++ "/" ++ String.mk (joinSep ['/'] l) ++ ext) r
      = String.mk (joinSep ['/'] l) := by
    unfold getRelativeConvexPath
    rw [hrel]
    have h3 : String.mk (joinSep ['/'] comps') = String.mk (joinSep ['/'] l ++ ext.data) := by
      rw [hA]
    rw [h3, stripSourceExt_append _ _ hext]
  have htoApi : toApiPath (r ++ "/" ++ String.mk (joinSep ['/'] l) ++ ext) n r
      = String.mk (joinSep ['.'] l) ++ "." ++ n := by
    unfold toApiPath
    rw [hgrel, show (String.mk (joinSep ['/'] l)).data = joinSep ['/'] l from rfl,
      splitChar_joinSep '/' l hlne hlslash]
  have hstart : strStartsWith (r ++ "/" ++ String.mk (joinSep ['/'] l) ++ ext) r = true := by
    unfold strStartsWith
    rw [hfd]
    exact isPrefixOf_self_app _ _
  have hfrom : fromApiPath ("api." ++ (String.mk (joinSep ['.'] l) ++ "." ++ n))
      = some ⟨String.mk (joinSep ['/'] l), n⟩ := by
    have hapd : ("api." ++ (String.mk (joinSep ['.'] l) ++ "." ++ n)).data
        = 'a' :: 'p' :: 'i' :: '.' :: (joinSep ['.'] l ++ '.' :: n.data) := by
      simp [String.data_append, show ("api." : String).data = ['a', 'p', 'i', '.'] from rfl,
        show ("." : String).data = ['.'] from rfl]
    have h1 : strStartsWith ("api." ++ (String.mk (joinSep ['.'] l) ++ "." ++ n)) "api." = true := by
      unfold strStartsWith
      rw [hapd]
      exact isPrefixOf_self_app "api.".data _
    have hstripNs : stripNs ("api." ++ (String.mk (joinSep ['.'] l) ++ "." ++ n))
        = String.mk (joinSep ['.'] l ++ '.' :: n.data) := by
      simp [stripNs, h1, hapd]
    have hparts : splitChar '.'
        (stripNs ("api." ++ (String.mk (joinSep ['.'] l) ++ "." ++ n))).data
        = l ++ [n.data] := by
      rw [hstripNs, show (String.mk (joinSep ['.'] l ++ '.' :: n.data)).data
        = joinSep ['.'] l ++ '.' :: n.data from rfl, ← joinSep_snoc '.' l n.data hlne]
      refine splitChar_joinSep '.' (l ++ [n.data]) (by simp) ?_
      intro m hm
      rcases List.mem_append.mp hm with h | h
      · exact hldot m h
      · have hmn : m = n.data := by simpa using h
        subst hmn
        exact hn
    have hp : 0 < l.length := List.length_pos.mpr hlne
    simp [fromApiPath, hparts, List.dropLast_concat, List.getLast?_concat]
    omega
  have hjoin : ∀ e : String, pathJoin r (String.mk (joinSep ['/'] l) ++ e)
      = String.mk (r.data ++ '/' :: (joinSep ['/'] l ++ e.data)) := by
    intro e
    unfold pathJoin
    rw [if_neg hr1]
    apply str_eq_of_data
    simp [String.data_append, show ("/" : String).data = ['/'] from rfl]
  have hfeq : r ++ "/" ++ String.mk (joinSep ['/'] l) ++ ext
      = String.mk (r.data ++ '/' :: (joinSep ['/'] l ++ ext.data)) := str_eq_of_data _ _ hfd
  have hT : pathJoin r (String.mk (joinSep ['/'] l) ++ ext)
      = r ++ "/" ++ String.mk (joinSep ['/'] l) ++ ext := by
    rw [hjoin ext]
    exact hfeq.symm
  have hbeq : ∀ e : String,
      (pathJoin r (String.mk (joinSep ['/'] l) ++ e)
        == r ++ "/" ++ String.mk (joinSep ['/'] l) ++ ext) = (e == ext) := by
    intro e
    by_cases hcase : e = ext
    · subst hcase
      simp [hT]
    · have hne2 : pathJoin r (String.mk (joinSep ['/'] l) ++ e)
          ≠ r ++ "/" ++ String.mk (joinSep ['/'] l) ++ ext := by
        intro heq
        have h2 : String.mk (r.data ++ '/' :: (joinSep ['/'] l ++ e.data))
            = String.mk (r.data ++ '/' :: (joinSep ['/'] l ++ ext.data)) := by
          rw [← hjoin e, heq, hfeq]
        have h3 : r.data ++ '/' :: (joinSep ['/'] l ++ e.data)
            = r.data ++ '/' :: (joinSep ['/'] l ++ ext.data) := congrArg String.data h2
        have h4 : e.data = ext.data := by simpa using h3
        exact hcase (data_inj e ext h4)
      rw [beq_eq_false_iff_ne.mpr hne2, beq_eq_false_iff_ne.mpr hcase]
  refine ⟨"api." ++ (String.mk (joinSep ['.'] l) ++ "." ++ n), String.mk (joinSep ['/'] l),
    ?_, hfrom, ⟨ext, hext, hT⟩, ?_⟩
  · simp [computeApiPath, hstart, htoApi]
  · rcases hext4 with h | h | h | h <;> subst h <;>
      simp [resolveApiPath, hfrom, List.find?, List.contains, List.elem,
        hbeq ".ts", hbeq ".tsx", hbeq ".js", hbeq ".jsx", hT]

/-- Witness for C1 at `/ws/convex/domains/contacts.ts` and `createContact`. -/
theorem c1_witness :
    ∃ ap mp,
      computeApiPath ⟨"/ws/convex", "/ws/convex"⟩ "/ws/convex/domains/contacts.ts"
        "createContact" = some ap ∧
      fromApiPath ap = some ⟨mp, "createContact"⟩ ∧
      (∃ e ∈ extensions, pathJoin "/ws/convex" (mp ++ e) = "/ws/convex/domains/contacts.ts") ∧
      resolveApiPath ⟨"/ws/convex", "/ws/convex"⟩ ["/ws/convex/domains/contacts.ts"] ap
        = some ("/ws/convex/domains/contacts.ts", "createContact") :=
  c1_codec_roundtrip "/ws/convex" "createContact" ".ts" "/ws/convex/domains/contacts.ts"
    ["domains", "contacts"] (by decide) (by decide) (by decide) (by decide) (by decide)
    (by decide) (by decide)

/-- C2 (amended): `findConvexFunctionAtPosition` returns nothing for any
position in a file whose path contains `_generated`; `findConvexFunctionsInFile`
however performs no generated-directory exclusion and does produce a
definition record for such a file when its text matches the export-wrapper
pattern and it lies under the definitions root. -/
theorem c2_generated_exclusion :
    (∀ (info? : Option ProjectInfo) (wrappers : List String) (fp content : String)
        (line char : Nat),
      containsSub fp.data "_generated".data = true →
      findConvexFunctionAtPosition info? wrappers fp content line char = none) ∧
    findConvexFunctionsInFile (some sampleInfo) DEFAULT_CONVEX_WRAPPERS genPath genContent
      = [⟨"foo", ConvexFunctionType.query, genPath, 0, 0, "api._generated.api.foo", "query"⟩] := by
  constructor
  · intro info? wrappers fp content line char h
    cases info? with
    | none => rfl
    | some info => simp [findConvexFunctionAtPosition, h]
  · decide

/-- Counterexample to C2 as stated: the generated file `genPath` (whose path
contains `_generated`) with pattern-matching text yields a non-empty scan
result from `findConvexFunctionsInFile`. -/
theorem c2_counterexample :
    containsSub genPath.data "_generated".data = true ∧
    findConvexFunctionsInFile (some sampleInfo) DEFAULT_CONVEX_WRAPPERS genPath genContent
      ≠ [] := by
  decide

/-- Witness for the amended C2 at a concrete generated file and position. -/
theorem c2_witness :
    containsSub genPath.data "_generated".data = true ∧
    findConvexFunctionAtPosition (some sampleInfo) DEFAULT_CONVEX_WRAPPERS genPath genContent
      0 0 = none :=
  ⟨by decide, c2_generated_exclusion.1 (some sampleInfo) DEFAULT_CONVEX_WRAPPERS genPath
    genContent 0 0 (by decide)⟩

/-- C3: kind classification.  `internalMutation` classifies as the internal
mutation kind (internal forms are tested before the plain forms), the custom
wrapper `authedZodMutation` as `mutation`, `doSomething` as `unknown` (the
matching is case-insensitive, witness `myQUERYwrapper`), and a `doSomething`
export matched through the configured custom wrapper set still produces a
record, with kind `unknown`. -/
theorem c3_kind_classification :
    getFunctionType "internalMutation" = ConvexFunctionType.internalMutation ∧
    getFunctionType "authedZodMutation" = ConvexFunctionType.mutation ∧
    getFunctionType "doSomething" = ConvexFunctionType.unknown ∧
    getFunctionType "myQUERYwrapper" = ConvexFunctionType.query ∧
    convexFunctionsOf sampleInfo (DEFAULT_CONVEX_WRAPPERS ++ ["doSomething"])
        "/ws/convex/x.ts" "export const weird = doSomething("
      = [⟨"weird", ConvexFunctionType.unknown, "/ws/convex/x.ts", 0, 0, "api.x.weird",
          "doSomething"⟩] := by
  decide

/-- C4: cursor resolution.  `findConvexFunctionAtPosition` is exactly the
ordered alternation of exact-line match, name-token match and body
containment (bodies reach to the line before the next definition, or the end
of the file); on the 44-line document with definitions at lines 5 and 40, a
cursor at line 20 resolves to the first definition, at line 40 to the second,
and at line 2 to none. -/
theorem c4_cursor_resolution :
    (∀ (info : ProjectInfo) (wrappers : List String) (fp content : String) (line char : Nat),
      strStartsWith fp info.convexDir = true →
      containsSub fp.data "_generated".data = false →
      findConvexFunctionAtPosition (some info) wrappers fp content line char =
        ((convexFunctionsOf info wrappers fp content).find? (fun g => g.line == line) <|>
          ((getWordAtPosition content line char).bind
            (fun w => (convexFunctionsOf info wrappers fp content).find? (fun g => g.name == w))
          <|>
          bodyContainment (sortByLine (convexFunctionsOf info wrappers fp content)) line
            (documentLineCount content)))) ∧
    findConvexFunctionAtPosition (some sampleInfo) DEFAULT_CONVEX_WRAPPERS c4path c4content
      20 3 = some c4first ∧
    findConvexFunctionAtPosition (some sampleInfo) DEFAULT_CONVEX_WRAPPERS c4path c4content
      40 0 = some c4second ∧
    findConvexFunctionAtPosition (some sampleInfo) DEFAULT_CONVEX_WRAPPERS c4path c4content
      2 0 = none := by
  refine ⟨?_, by decide, by decide, by decide⟩
  intro info wrappers fp content line char h1 h2
  simp only [findConvexFunctionAtPosition]
  rw [if_pos h1, if_neg (by simp [h2])]
  rcases hfind : (convexFunctionsOf info wrappers fp content).find? (fun g => g.line == line)
    with _ | f
  · rcases hword : getWordAtPosition content line char with _ | w
    · simp [hfind, hword]
    · rcases hfind2 : (convexFunctionsOf info wrappers fp content).find? (fun g => g.name == w)
        with _ | f2
      · simp [hfind, hword, hfind2]
      · simp [hfind, hword, hfind2]
  · simp [hfind]

/-- Witness for the general part of C4 at the concrete document and cursor
line 20. -/
theorem c4_witness :
    strStartsWith c4path sampleInfo.convexDir = true ∧
    containsSub c4path.data "_generated".data = false ∧
    findConvexFunctionAtPosition (some sampleInfo) DEFAULT_CONVEX_WRAPPERS c4path c4content
      20 3 =
      ((convexFunctionsOf sampleInfo DEFAULT_CONVEX_WRAPPERS c4path c4content).find?
          (fun g => g.line == 20) <|>
        ((getWordAtPosition c4content 20 3).bind
          (fun w => (convexFunctionsOf sampleInfo DEFAULT_CONVEX_WRAPPERS c4path c4content).find?
            (fun g => g.name == w)) <|>
        bodyContainment (sortByLine (convexFunctionsOf sampleInfo DEFAULT_CONVEX_WRAPPERS
          c4path c4content)) 20 (documentLineCount c4content))) :=
  ⟨by decide, by decide,
    c4_cursor_resolution.1 sampleInfo DEFAULT_CONVEX_WRAPPERS c4path c4content 20 3
      (by decide) (by decide)⟩

/-- The cache slot after a call always holds the value the call returned. -/
theorem getInfo_cache_eq (detect : Option ProjectInfo) (now : Nat) (st : CacheState) :
    ((getConvexProjectInfo detect now st).2.1).cachedProjectInfo
      = (getConvexProjectInfo detect now st).1 := by
  unfold getConvexProjectInfo
  rcases st with ⟨cached, ts⟩
  rcases cached with _ | info₀
  · rfl
  · by_cases htt : now - ts < CACHE_TTL_MS <;> simp [htt]

/-- C5: cache idempotence.  After a `getConvexProjectInfo` call that returned
a project info, a second call within the TTL window returns the identical
value with unchanged state and without running detection; a call after TTL
expiry runs detection again, as does a call after an explicit
`clearProjectCache`. -/
theorem c5_cache_idempotence (detect₁ detect₂ : Option ProjectInfo) (st₀ st₁ : CacheState)
    (info : ProjectInfo) (ran₁ : Bool) (now₁ now₂ : Nat)
    (hcall : getConvexProjectInfo detect₁ now₁ st₀ = (some info, st₁, ran₁)) :
    (now₂ - st₁.cacheTimestamp < CACHE_TTL_MS →
      getConvexProjectInfo detect₂ now₂ st₁ = (some info, st₁, false)) ∧
    (CACHE_TTL_MS ≤ now₂ - st₁.cacheTimestamp →
      (getConvexProjectInfo detect₂ now₂ st₁).2.2 = true) ∧
    (getConvexProjectInfo detect₂ now₂ (clearProjectCache st₁)).2.2 = true := by
  have h21 : (getConvexProjectInfo detect₁ now₁ st₀).2.1 = st₁ := by rw [hcall]
  have h11 : (getConvexProjectInfo detect₁ now₁ st₀).1 = some info := by rw [hcall]
  have hcache : st₁.cachedProjectInfo = some info := by
    rw [← h21, getInfo_cache_eq, h11]
  refine ⟨?_, ?_, ?_⟩
  · intro h
    simp [getConvexProjectInfo, hcache, h]
  · intro h
    simp [getConvexProjectInfo, hcache, Nat.not_lt.mpr h]
  · simp [getConvexProjectInfo, clearProjectCache]

/-- Witness for C5: a first call at time 1000 fills the cache; a second call
at time 5000 (within the 30s TTL) returns the same value without
re-detection. -/
theorem c5_witness :
    getConvexProjectInfo (some ⟨"/ws/convex", "/ws"⟩) 1000 ⟨none, 0⟩
      = (some ⟨"/ws/convex", "/ws"⟩, ⟨some ⟨"/ws/convex", "/ws"⟩, 1000⟩, true) ∧
    5000 - (1000 : Nat) < CACHE_TTL_MS ∧
    getConvexProjectInfo none 5000 ⟨some ⟨"/ws/convex", "/ws"⟩, 1000⟩
      = (some ⟨"/ws/convex", "/ws"⟩, ⟨some ⟨"/ws/convex", "/ws"⟩, 1000⟩, false) :=
  ⟨by decide, by decide,
    (c5_cache_idempotence (some ⟨"/ws/convex", "/ws"⟩) none ⟨none, 0⟩
      ⟨some ⟨"/ws/convex", "/ws"⟩, 1000⟩ ⟨"/ws/convex", "/ws"⟩ true 1000 5000 (by decide)).1
      (by decide)⟩

/-- C6: usage search.  Every reported usage record carries as access pattern
exactly the hook detected on its (trimmed) match line — in particular it is
left unset when no recognized calling-convention token (followed by an
opening parenthesis) occurs on the line; and searching
`api.domains.contacts.createContact` over a scope holding exactly one file
whose line 2 reads
`const createContact = useMutation(api.domains.contacts.createContact);`
reports exactly one usage, at line 2 column 34, with access pattern
`useMutation`. -/
theorem c6_usage_search :
    (∀ (info? : Option ProjectInfo) (scopes : List (List ScopeFile)) (ap fn : String)
        (u : ConvexFunctionUsage), u ∈ (searchForUsages info? scopes ap fn).usages →
      u.hookUsed = detectHook u.lineText.data) ∧
    searchForUsages (some sampleInfo) [[c6file]] c6apiPath "createContact"
      = ⟨"createContact", c6apiPath, [c6record]⟩ := by
  constructor
  · intro info? scopes ap fn u hu
    cases info? with
    | none => simp [searchForUsages] at hu
    | some info =>
      simp only [searchForUsages, List.mem_flatMap, usagesInFile, List.mem_map] at hu
      obtain ⟨scope, _, file, _, idx, _, rfl⟩ := hu
      rfl
  · decide

/-- Witness for the general part of C6 at the concrete search. -/
theorem c6_witness :
    c6record ∈ (searchForUsages (some sampleInfo) [[c6file]] c6apiPath "createContact").usages ∧
    c6record.hookUsed = detectHook c6record.lineText.data :=
  ⟨by decide,
    c6_usage_search.1 (some sampleInfo) [[c6file]] c6apiPath "createContact" c6record
      (by decide)⟩

/-- C7: decoder failure condition.  When the identifier, after namespace
stripping, splits into fewer than 2 dot-segments, `fromApiPath` returns the
`none` sentinel (it never throws: the function is total); with at least 2
segments it returns the last segment as function name and the preceding
segments joined by `/` as module path. -/
theorem c7_decoder_failure (s : String) :
    ((splitChar '.' (stripNs s).data).length < 2 → fromApiPath s = none) ∧
    (2 ≤ (splitChar '.' (stripNs s).data).length →
      fromApiPath s
        = some ⟨String.mk (joinSep ['/'] (splitChar '.' (stripNs s).data).dropLast),
            String.mk ((splitChar '.' (stripNs s).data).getLast?.getD [])⟩) := by
  constructor
  · intro h
    simp [fromApiPath, h]
  · intro h
    have h2 : ¬ ((splitChar '.' (stripNs s).data).length < 2) := by omega
    simp [fromApiPath, h2]

/-- Witness for C7: a bare `api.onlyfn` (one segment after stripping) is
invalid, while `api.domains.contacts.createContact` decodes. -/
theorem c7_witness :
    ((splitChar '.' (stripNs "api.onlyfn").data).length < 2 ∧
      fromApiPath "api.onlyfn" = none) ∧
    (2 ≤ (splitChar '.' (stripNs "api.domains.contacts.createContact").data).length ∧
      fromApiPath "api.domains.contacts.createContact"
        = some ⟨"domains/contacts", "createContact"⟩) :=
  ⟨⟨by decide, (c7_decoder_failure "api.onlyfn").1 (by decide)⟩,
   ⟨by decide, by
      rw [(c7_decoder_failure "api.domains.contacts.createContact").2 (by decide)]
      decide⟩⟩

/-- C8: the containment test of `computeApiPath` is a raw string-prefix
check: it succeeds for every file path that merely starts with the
definitions-root string; for the sibling directory `/ws/convexExtra` under
root `/ws/convex` the produced identifier is derived from a relative path
that climbs out of the root (`../convexExtra/f`). -/
theorem c8_raw_prefix_encode :
    (∀ (info : ProjectInfo) (f n : String),
      strStartsWith f info.convexDir = true → (computeApiPath info f n).isSome = true) ∧
    computeApiPath ⟨"/ws/convex", "/ws"⟩ "/ws/convexExtra/f.ts" "myFn"
      = some "api....convexExtra.f.myFn" := by
  constructor
  · intro info f n h
    simp [computeApiPath, h]
  · decide

/-- Witness for C8 at the sibling-directory file. -/
theorem c8_witness :
    strStartsWith "/ws/convexExtra/f.ts" "/ws/convex" = true ∧
    (computeApiPath ⟨"/ws/convex", "/ws"⟩ "/ws/convexExtra/f.ts" "myFn").isSome = true :=
  ⟨by decide,
    c8_raw_prefix_encode.1 ⟨"/ws/convex", "/ws"⟩ "/ws/convexExtra/f.ts" "myFn" (by decide)⟩

/-- C9: the decoder does not validate the namespace token.  For an identifier
whose first token is neither `api` nor `internal` but which has at least two
dot-segments, `fromApiPath` succeeds and keeps the unrecognized first token as
the first module-path component. -/
theorem c9_namespace_unvalidated (s : String)
    (h1 : strStartsWith s "api." = false) (h2 : strStartsWith s "internal." = false)
    (h3 : 2 ≤ (splitChar '.' s.data).length) :
    fromApiPath s
      = some ⟨String.mk (joinSep ['/'] (splitChar '.' s.data).dropLast),
          String.mk ((splitChar '.' s.data).getLast?.getD [])⟩ := by
  have hstrip : stripNs s = s := by
    simp [stripNs, h1, h2]
  have hlt : ¬ ((splitChar '.' s.data).length < 2) := by omega
  simp [fromApiPath, hstrip, hlt]

/-- Witness for C9: `bogus.foo.bar` decodes to module path `bogus/foo` and
function name `bar`. -/
theorem c9_witness :
    strStartsWith "bogus.foo.bar" "api." = false ∧
    strStartsWith "bogus.foo.bar" "internal." = false ∧
    fromApiPath "bogus.foo.bar" = some ⟨"bogus/foo", "bar"⟩ :=
  ⟨by decide, by decide, by
    rw [c9_namespace_unvalidated "bogus.foo.bar" (by decide) (by decide) (by decide)]
    decide⟩

/-- C10: the name-token match is applied file-wide, before body containment.
Whenever the cursor is on no definition's declaration line but the word under
it equals the name of some definition found in the file, that definition is
returned — in particular even when the cursor lies inside a different
definition's textual body (see the witness). -/
theorem c10_name_token_filewide (info : ProjectInfo) (wrappers : List String)
    (fp content : String) (line char : Nat) (w : String) (f : ConvexFunctionDefinition)
    (h1 : strStartsWith fp info.convexDir = true)
    (h2 : containsSub fp.data "_generated".data = false)
    (h3 : (convexFunctionsOf info wrappers fp content).find? (fun g => g.line == line) = none)
    (h4 : getWordAtPosition content line char = some w)
    (h5 : (convexFunctionsOf info wrappers fp content).find? (fun g => g.name == w) = some f) :
    findConvexFunctionAtPosition (some info) wrappers fp content line char = some f := by
  simp only [findConvexFunctionAtPosition]
  rw [if_pos h1, if_neg (by simp [h2])]
  simp [h3, h4, h5]

/-- Witness for C10: cursor at line 2 column 9 lies inside `firstFunc`'s body
(lines 0-3) on the word `secondFunc`, and resolution returns `secondFunc`. -/
theorem c10_witness :
    getWordAtPosition c10content 2 9 = some "secondFunc" ∧
    c10first.line ≤ 2 ∧ 2 ≤ c10second.line - 1 ∧
    (convexFunctionsOf sampleInfo DEFAULT_CONVEX_WRAPPERS c10path c10content).find?
      (fun g => g.line == 2) = none ∧
    findConvexFunctionAtPosition (some sampleInfo) DEFAULT_CONVEX_WRAPPERS c10path c10content
      2 9 = some c10second :=
  ⟨by decide, by decide, by decide, by decide,
    c10_name_token_filewide sampleInfo DEFAULT_CONVEX_WRAPPERS c10path c10content 2 9
      "secondFunc" c10second (by decide) (by decide) (by decide) (by decide) (by decide)⟩

end ConvexNavigator
